import Mathlib

/-!
Verification development for the vercel-req-cancel repository.

The server half lives in src/app/api/mock/route.ts: a GET handler with four
modes (signal, stream, heartbeat, chunked).  The client half lives in
src/app/page.tsx: a request orchestrator (handleApiCall, handleCancelRequest)
and two incremental stream parsers (handleSSEResponse, handleStreamResponse).

Modelling conventions:
  - JavaScript numbers are modelled as exact rationals; NaN is modelled by
    the none case of an Option, written JSNum below.  The integer durations
    produced by parseInt and the arithmetic appearing in the route handlers
    (division by 5, min, addition, subtraction, Math.round) stay exact.
  - Byte streams are modelled as lists of characters after text decoding;
    the TextDecoder with stream set to true makes chunk boundaries of the
    decoded text coincide with arbitrary boundaries of the byte stream.
  - JSON.parse and JSON object field access are modelled executably below.
-/

/-- JSON values, as produced by JSON.parse on the client. -/
inductive Json where
  | null
  | bool (b : Bool)
  | num (q : ℚ)
  | str (s : String)
  | arr (items : List Json)
  | obj (pairs : List (String × Json))

/-- Characters treated as whitespace by the JSON grammar. -/
def isJsonWs (c : Char) : Bool :=
  c = ' ' || c = '\t' || c = '\n' || c = '\r'

/-- Drop leading JSON whitespace. -/
def skipWs : List Char → List Char
  | [] => []
  | c :: cs => if isJsonWs c then skipWs cs else c :: cs

/-- Decimal digit value of a character, if any. -/
def digitVal (c : Char) : Option Nat :=
  if '0' ≤ c ∧ c ≤ '9' then some (c.toNat - 48) else none

/-- Hexadecimal digit value of a character, if any. -/
def hexVal (c : Char) : Option Nat :=
  if '0' ≤ c ∧ c ≤ '9' then some (c.toNat - 48)
  else if 'a' ≤ c ∧ c ≤ 'f' then some (c.toNat - 87)
  else if 'A' ≤ c ∧ c ≤ 'F' then some (c.toNat - 55)
  else none

/-- Take the longest run of leading decimal digits. -/
def takeDigits : List Char → List Nat × List Char
  | [] => ([], [])
  | c :: cs =>
    match digitVal c with
    | some d =>
      let r := takeDigits cs
      (d :: r.1, r.2)
    | none => ([], c :: cs)

/-- Numeric value of a digit list read most significant first. -/
def digitsToNat (ds : List Nat) : Nat :=
  ds.foldl (fun a d => a * 10 + d) 0

/-- Body of a JSON string after the opening quote: returns the decoded
characters and the rest of the input after the closing quote. -/
def parseStringRest : List Char → Option (List Char × List Char)
  | [] => none
  | '"' :: rest => some ([], rest)
  | '\\' :: 'u' :: h1 :: h2 :: h3 :: h4 :: rest =>
    match hexVal h1, hexVal h2, hexVal h3, hexVal h4 with
    | some a, some b, some c, some d =>
      (parseStringRest rest).map
        (fun p => (Char.ofNat (((a * 16 + b) * 16 + c) * 16 + d) :: p.1, p.2))
    | _, _, _, _ => none
  | '\\' :: e :: rest =>
    match (match e with
      | 'n' => some '\n'
      | 't' => some '\t'
      | 'r' => some '\r'
      | 'b' => some (Char.ofNat 8)
      | 'f' => some (Char.ofNat 12)
      | '"' => some '"'
      | '\\' => some '\\'
      | '/' => some '/'
      | _ => none) with
    | some c => (parseStringRest rest).map (fun p => (c :: p.1, p.2))
    | none => none
  | c :: rest =>
    if c.toNat < 32 then none
    else (parseStringRest rest).map (fun p => (c :: p.1, p.2))

/-- Optional exponent part of a JSON number applied to an already parsed
value. -/
def parseExpOpt (v : ℚ) : List Char → Option (ℚ × List Char)
  | 'e' :: rest => parseExpSigned v rest
  | 'E' :: rest => parseExpSigned v rest
  | cs => some (v, cs)
where
  parseExpSigned (v : ℚ) (cs : List Char) : Option (ℚ × List Char) :=
    let signed : Bool × List Char :=
      match cs with
      | '-' :: r => (true, r)
      | '+' :: r => (false, r)
      | r => (false, r)
    match takeDigits signed.2 with
    | ([], _) => none
    | (ds, rest) =>
      let e := digitsToNat ds
      if signed.1 then some (v / (10 : ℚ) ^ e, rest)
      else some (v * (10 : ℚ) ^ e, rest)

/-- JSON number after an optional leading minus sign. -/
def parseNumAux (cs : List Char) : Option (ℚ × List Char) :=
  match takeDigits cs with
  | ([], _) => none
  | (ds, cs2) =>
    if 1 < ds.length ∧ ds.headD 0 = 0 then none
    else
      let ip : ℚ := (digitsToNat ds : ℕ)
      match cs2 with
      | '.' :: r =>
        match takeDigits r with
        | ([], _) => none
        | (fs, cs3) =>
          let fp : ℚ := (digitsToNat fs : ℕ) / ((10 : ℚ) ^ fs.length)
          parseExpOpt (ip + fp) cs3
      | _ => parseExpOpt ip cs2

/-- JSON number, including the optional leading minus sign. -/
def parseNum : List Char → Option (ℚ × List Char)
  | '-' :: cs => (parseNumAux cs).map (fun p => (-p.1, p.2))
  | cs => parseNumAux cs

/-- Intermediate result of the recursive descent: a value, a list of array
elements, or a list of object fields. -/
inductive PRes where
  | v (j : Json)
  | vs (l : List Json)
  | fs (l : List (String × Json))

/-- Task selector for the recursive descent. -/
inductive PTask where
  | val
  | elems
  | fields

/-- Fueled recursive descent for the JSON grammar.  The fuel only bounds
nesting work; parseJson below supplies enough fuel for any input. -/
def parseAux : Nat → PTask → List Char → Option (PRes × List Char)
  | 0, _, _ => none
  | fuel + 1, PTask.val, cs =>
    match skipWs cs with
    | 'n' :: 'u' :: 'l' :: 'l' :: r => some (PRes.v Json.null, r)
    | 't' :: 'r' :: 'u' :: 'e' :: r => some (PRes.v (Json.bool true), r)
    | 'f' :: 'a' :: 'l' :: 's' :: 'e' :: r => some (PRes.v (Json.bool false), r)
    | '"' :: r =>
      (parseStringRest r).map (fun p => (PRes.v (Json.str (String.mk p.1)), p.2))
    | '[' :: r =>
      (match skipWs r with
       | ']' :: r2 => some (PRes.v (Json.arr []), r2)
       | _ =>
         match parseAux fuel PTask.elems (skipWs r) with
         | some (PRes.vs l, r2) => some (PRes.v (Json.arr l), r2)
         | _ => none)
    | '{' :: r =>
      (match skipWs r with
       | '}' :: r2 => some (PRes.v (Json.obj []), r2)
       | _ =>
         match parseAux fuel PTask.fields (skipWs r) with
         | some (PRes.fs l, r2) => some (PRes.v (Json.obj l), r2)
         | _ => none)
    | cs2 => (parseNum cs2).map (fun p => (PRes.v (Json.num p.1), p.2))
  | fuel + 1, PTask.elems, cs =>
    match parseAux fuel PTask.val cs with
    | some (PRes.v j, r) =>
      (match skipWs r with
       | ',' :: r2 =>
         (match parseAux fuel PTask.elems r2 with
          | some (PRes.vs l, r3) => some (PRes.vs (j :: l), r3)
          | _ => none)
       | ']' :: r2 => some (PRes.vs [j], r2)
       | _ => none)
    | _ => none
  | fuel + 1, PTask.fields, cs =>
    match skipWs cs with
    | '"' :: r =>
      (match parseStringRest r with
       | some (k, r1) =>
         (match skipWs r1 with
          | ':' :: r2 =>
            (match parseAux fuel PTask.val r2 with
             | some (PRes.v j, r3) =>
               (match skipWs r3 with
                | ',' :: r4 =>
                  (match parseAux fuel PTask.fields r4 with
                   | some (PRes.fs l, r5) => some (PRes.fs ((String.mk k, j) :: l), r5)
                   | _ => none)
                | '}' :: r4 => some (PRes.fs [(String.mk k, j)], r4)
                | _ => none)
             | _ => none)
          | _ => none)
       | none => none)
    | _ => none

/-- The model of JSON.parse: parse one value and require only whitespace
after it; any failure yields none, which the client code treats as a
silently skipped malformed unit. -/
def parseJson (cs : List Char) : Option Json :=
  match parseAux (2 * cs.length + 8) PTask.val cs with
  | some (PRes.v j, r) => if skipWs r = [] then some j else none
  | _ => none

/-- Field access on a parsed JSON value: on objects the last binding of the
key wins, as in JavaScript; on every other value the access yields none,
matching an undefined property (lines that are not objects produce no
client event either way, because a thrown property access on null is caught
by the same try block that guards JSON.parse in src/app/page.tsx). -/
def Json.getField : Json → String → Option Json
  | Json.obj pairs, k =>
    pairs.foldl (fun acc f => if f.1 = k then some f.2 else acc) none
  | _, _ => none

/-- JavaScript truthiness of a JSON value. -/
def jsTruthy : Json → Bool
  | Json.null => false
  | Json.bool b => b
  | Json.num q => !(q = 0)
  | Json.str s => !(s = "")
  | Json.arr _ => true
  | Json.obj _ => true

/-- Model of the expression (x || 0) applied to a possibly missing field. -/
def orZero : Option Json → Json
  | some v => if jsTruthy v then v else Json.num 0
  | none => Json.num 0

/-- Test whether an optional JSON value is a given string, modelling the
strict equality tests on discriminator fields in src/app/page.tsx. -/
def isStr (o : Option Json) (s : String) : Bool :=
  match o with
  | some (Json.str s2) => s2 = s
  | _ => false

/-- Splitting a character list on newline characters, modelling the
JavaScript expression chunk.split of a newline: the result is always
nonempty, the empty input gives one empty line, and a trailing newline
gives a trailing empty line. -/
def splitOnNl : List Char → List (List Char)
  | [] => [[]]
  | c :: rest =>
    if c = '\n' then [] :: splitOnNl rest
    else
      match splitOnNl rest with
      | [] => [[c]]
      | l :: ls => (c :: l) :: ls

/-- Prepend a partial line to the first line of a split. -/
def mergeHead (l : List Char) : List (List Char) → List (List Char)
  | [] => [l]
  | h :: t => (l ++ h) :: t

/-- Prefix test on character lists, modelling String.startsWith. -/
def startsWith : List Char → List Char → Bool
  | [], _ => true
  | _ :: _, [] => false
  | p :: ps, c :: cs => p = c && startsWith ps cs

/-- State updates a parsed unit can dispatch to the shared client state:
setResponse with the parsed completion object, or setProgress with the
value of the progress field. -/
inductive ClientEvent where
  | setResponse (j : Json)
  | setProgress (v : Json)

/-- Event dispatched for one line by handleSSEResponse in src/app/page.tsx:
only lines carrying the data prefix are considered, the remainder is parsed
as JSON, a complete unit sets the response, a progress unit sets progress to
the progress field with fallback 0, and heartbeat or malformed data is
ignored. -/
def sseLineEvent (line : List Char) : Option ClientEvent :=
  if startsWith "data: ".data line then
    match parseJson (line.drop 6) with
    | none => none
    | some parsed =>
      if isStr (parsed.getField "type") "complete" then
        some (ClientEvent.setResponse parsed)
      else if isStr (parsed.getField "type") "progress" then
        some (ClientEvent.setProgress (orZero (parsed.getField "progress")))
      else none
  else none

/-- Events dispatched by handleSSEResponse for one decoded read chunk: the
chunk is split on newlines and every line is handled independently; no
partial line is carried over to the next read. -/
def sseChunkEvents (chunk : List Char) : List ClientEvent :=
  (splitOnNl chunk).filterMap sseLineEvent

/-- Events dispatched by handleSSEResponse over a whole sequence of read
chunks, in order. -/
def handleSSEResponse (chunks : List (List Char)) : List ClientEvent :=
  (chunks.map sseChunkEvents).flatten

/-- Event dispatched for one complete line by handleStreamResponse in
src/app/page.tsx: blank lines are skipped, the line is parsed as JSON,
units discriminated by status or type dispatch setResponse or setProgress,
and malformed lines are silently skipped. -/
def ndjsonLineEvent (line : List Char) : Option ClientEvent :=
  if line.all isJsonWs then none
  else
    match parseJson line with
    | none => none
    | some data =>
      if isStr (data.getField "status") "complete" ||
          isStr (data.getField "type") "complete" then
        some (ClientEvent.setResponse data)
      else if isStr (data.getField "status") "progress" ||
          isStr (data.getField "type") "progress" then
        some (ClientEvent.setProgress (orZero (data.getField "progress")))
      else none

/-- Parser state of handleStreamResponse: the pending partial line buffer
and the events dispatched so far. -/
structure NdjsonState where
  buffer : List Char
  events : List ClientEvent

/-- One read iteration of handleStreamResponse: append the decoded chunk to
the buffer, split on newlines, keep the final possibly incomplete fragment
as the new buffer, and dispatch one event per complete line. -/
def ndjsonFeed (st : NdjsonState) (chunk : List Char) : NdjsonState :=
  let lines := splitOnNl (st.buffer ++ chunk)
  { buffer := lines.getLastD []
    events := st.events ++ lines.dropLast.filterMap ndjsonLineEvent }

/-- Events dispatched by handleStreamResponse over a whole sequence of read
chunks; the leftover buffer is discarded when the stream ends, as in the
source, where the loop breaks on the done flag without flushing. -/
def handleStreamResponse (chunks : List (List Char)) : List ClientEvent :=
  (chunks.foldl ndjsonFeed { buffer := [], events := [] }).events

/-- Test that a read chunk ends exactly at a line boundary: it is empty or
its last character is a newline. -/
def nlAligned : List Char → Bool
  | [] => true
  | cs => cs.getLastD ' ' = '\n'

/-- JavaScript numbers restricted to the values reachable in the route
handlers: an exact rational, or none for NaN. -/
abbrev JSNum := Option ℚ

/-- Comparison with NaN propagation: any comparison with NaN is false. -/
def jsLt : JSNum → JSNum → Bool
  | some a, some b => decide (a < b)
  | _, _ => false

/-- Math.min with NaN propagation. -/
def jsMin : JSNum → JSNum → JSNum
  | some a, some b => some (min a b)
  | _, _ => none

/-- Exact rational addition computed through mkRat, so that the kernel can
evaluate it; the lemma qAdd_eq identifies it with ordinary addition. -/
def qAdd (a b : ℚ) : ℚ :=
  mkRat (a.num * b.den + b.num * a.den) (a.den * b.den)

/-- Exact rational subtraction computed through mkRat. -/
def qSub (a b : ℚ) : ℚ :=
  mkRat (a.num * b.den - b.num * a.den) (a.den * b.den)

/-- Exact rational multiplication computed through mkRat. -/
def qMul (a b : ℚ) : ℚ :=
  mkRat (a.num * b.num) (a.den * b.den)

/-- Exact rational inverse computed through mkRat. -/
def qInv (b : ℚ) : ℚ :=
  if 0 ≤ b.num then mkRat b.den b.num.natAbs
  else mkRat (-(b.den : ℤ)) b.num.natAbs

/-- Exact rational division computed through mkRat. -/
def qDiv (a b : ℚ) : ℚ :=
  qMul a (qInv b)

/-- Addition with NaN propagation. -/
def jsAdd : JSNum → JSNum → JSNum
  | some a, some b => some (qAdd a b)
  | _, _ => none

/-- Subtraction with NaN propagation. -/
def jsSub : JSNum → JSNum → JSNum
  | some a, some b => some (qSub a b)
  | _, _ => none

/-- Multiplication with NaN propagation. -/
def jsMul : JSNum → JSNum → JSNum
  | some a, some b => some (qMul a b)
  | _, _ => none

/-- Division with NaN propagation.  Division by zero is mapped to NaN; in
the route handlers the only divisions are by the constant 5 and by a
duration that the loop guard has already established to be positive, so
this case is never reached. -/
def jsDiv : JSNum → JSNum → JSNum
  | some a, some b => if b = 0 then none else some (qDiv a b)
  | _, _ => none

/-- The rational q plus one half, computed through mkRat. -/
def qHalfUp (q : ℚ) : ℚ :=
  mkRat (2 * q.num + q.den) (2 * q.den)

/-- Rounding half toward positive infinity on rationals, computed from the
numerator and denominator so that the kernel can evaluate it; the lemma
ratRound_eq below identifies it with round. -/
def ratRound (q : ℚ) : ℤ :=
  (qHalfUp q).num / ((qHalfUp q).den : ℤ)

/-- Math.round with NaN propagation; Math.round rounds half toward
positive infinity. -/
def jsRound : JSNum → JSNum
  | some a => some ((ratRound a : ℤ) : ℚ)
  | none => none

/-- How one server-side run of a streaming handler ends: the delay loop
runs to completion, or an AbortError is thrown by the interruptible delay
while waiting for tick k, or the write of tick k throws because the client
disconnected. -/
inductive RunFate where
  | completes
  | abortDuringWait (k : Nat)
  | failDuringWrite (k : Nat)
deriving DecidableEq

/-- One unit emitted into a response stream, abstracting the serialized
JSON object it carries: the starting unit, a progress unit with its
progress and elapsed fields, the completion unit with its mode and
duration fields, or a heartbeat unit. -/
inductive SUnit where
  | start
  | progress (p : JSNum) (elapsed : JSNum)
  | complete (mode : String) (duration : JSNum)
  | heartbeat
deriving DecidableEq

/-- The while loop shared verbatim by handleStreamMode and
handleChunkedMode in src/app/api/mock/route.ts: while elapsed is less than
duration, wait min of the tick interval and the remaining time, add the
wait to elapsed, and emit one progress unit computed as
Math.round of elapsed over duration times 100; an abort during the wait or
a failed write ends the run without the completion unit.  The Boolean in
the result records whether the loop exited normally, in which case the
caller emits the completion unit.  The fuel argument only bounds the
number of iterations; the callers supply enough for the loop to finish. -/
def progressLoop (duration intervalMs : JSNum) (fate : RunFate) :
    Nat → JSNum → Nat → List SUnit × Bool
  | 0, _, _ => ([], false)
  | fuel + 1, elapsed, k =>
    if jsLt elapsed duration then
      if fate = RunFate.abortDuringWait k then ([], false)
      else
        let waitTime := jsMin intervalMs (jsSub duration elapsed)
        let elapsed2 := jsAdd elapsed waitTime
        if fate = RunFate.failDuringWrite k then ([], false)
        else
          let r := progressLoop duration intervalMs fate fuel elapsed2 (k + 1)
          (SUnit.progress (jsRound (jsMul (jsDiv elapsed2 duration) (some 100))) elapsed2
              :: r.1,
            r.2)
    else ([], true)

/-- Floor of a nonnegative rational as a natural number, computed from the
numerator and denominator so that the kernel can evaluate it. -/
def ratFloorNat (q : ℚ) : Nat :=
  (q.num / (q.den : ℤ)).toNat

/-- Iteration budget for progressLoop: at least two more than the number
of ticks the loop can perform. -/
def loopFuel : JSNum → JSNum → Nat
  | some d, some i =>
    if 0 < i then ratFloorNat (qDiv d i) + 2 else 1
  | _, _ => 1

/-- The stream mode handler of src/app/api/mock/route.ts: tick interval
min of 1000 and duration over 5, a start unit, the progress loop, and a
completion unit with mode stream when the loop was not interrupted. -/
def handleStreamMode (duration : JSNum) (fate : RunFate) : List SUnit :=
  let intervalMs := jsMin (some 1000) (jsDiv duration (some 5))
  let r := progressLoop duration intervalMs fate (loopFuel duration intervalMs) (some 0) 0
  SUnit.start :: r.1 ++ if r.2 then [SUnit.complete "stream" duration] else []

/-- The chunked mode handler of src/app/api/mock/route.ts: fixed tick
interval 500, a start unit, the progress loop, and a completion unit with
mode chunked when the loop was not interrupted. -/
def handleChunkedMode (duration : JSNum) (fate : RunFate) : List SUnit :=
  let r := progressLoop duration (some 500) fate (loopFuel duration (some 500)) (some 0) 0
  SUnit.start :: r.1 ++ if r.2 then [SUnit.complete "chunked" duration] else []

/-- How the single interruptible delay of signal mode ends. -/
inductive SignalOutcome where
  | completed
  | aborted
  | failed
deriving DecidableEq

/-- A response produced at the HTTP boundary: a JSON body, a plain text
body, a newline delimited JSON stream, or a server sent events stream. -/
inductive ApiResult where
  | json (status : Nat) (body : Json)
  | text (status : Nat) (body : String)
  | ndjson (status : Nat) (units : List SUnit)
  | sse (status : Nat) (units : List SUnit)

/-- Decimal rendering of a JavaScript number.  Only integers reach this
function in the handlers, because parseInt produces integers. -/
def jsNumToString : JSNum → String
  | none => "NaN"
  | some q =>
    if q.den = 1 then
      if q.num < 0 then "-" ++ toString q.num.natAbs else toString q.num.natAbs
    else toString q.num ++ "/" ++ toString q.den

/-- JSON encoding of a JavaScript number: JSON.stringify turns NaN into
null. -/
def jsNumToJson : JSNum → Json
  | none => Json.null
  | some q => Json.num q

/-- The signal mode handler of src/app/api/mock/route.ts: if the
interruptible delay completes, a 200 JSON response with the fields mode,
message, timestamp and duration in that order; if the delay is aborted, a
499 plain text response; any other error is rethrown, modelled by none,
and turned into a 500 by the GET wrapper. -/
def handleSignalMode (outcome : SignalOutcome) (duration : JSNum) (ts : String) :
    Option ApiResult :=
  match outcome with
  | SignalOutcome.completed =>
    some (ApiResult.json 200 (Json.obj
      [("mode", Json.str "signal"),
       ("message", Json.str ("Completed after " ++ jsNumToString duration ++
         "ms using AbortSignal")),
       ("timestamp", Json.str ts),
       ("duration", jsNumToJson duration)]))
  | SignalOutcome.aborted => some (ApiResult.text 499 "Request was aborted")
  | SignalOutcome.failed => none

/-- How the main delay of heartbeat mode ends. -/
inductive HbDelay where
  | completed
  | aborted
  | errored
deriving DecidableEq

/-- One interleaved execution of the heartbeat mode handler, described by
its scheduling outcomes: whether the initial write throws, how many
heartbeat writes succeed before the main delay settles, whether one more
heartbeat write then throws because the client disconnected, how the main
delay ends, and whether the completion write throws. -/
structure HbPath where
  startFails : Bool
  n : Nat
  hbFails : Bool
  delay : HbDelay
  completeFails : Bool

/-- Primitive actions the heartbeat mode handler performs on its timer and
its response stream controller. -/
inductive HbAct where
  | enq (u : SUnit)
  | setItv
  | clearItv
  | errSig
  | close
deriving DecidableEq

/-- Actions performed after the main delay of heartbeat mode settles,
following src/app/api/mock/route.ts: on completion, clear the interval if
it is still set, then write the completion unit and close, where a throwing
write falls into the catch block, which finds the interval already null,
signals the error and closes; on abort, the catch block clears the
interval if set and closes; on any other error, the catch block clears the
interval if set, signals the error and closes. -/
def hbTail (d : JSNum) (p : HbPath) (intervalActive closedAlready : Bool) : List HbAct :=
  match p.delay with
  | HbDelay.completed =>
    (if intervalActive then [HbAct.clearItv] else []) ++
      (if closedAlready || p.completeFails then [HbAct.errSig, HbAct.close]
       else [HbAct.enq (SUnit.complete "heartbeat" d), HbAct.close])
  | HbDelay.aborted =>
    (if intervalActive then [HbAct.clearItv] else []) ++ [HbAct.close]
  | HbDelay.errored =>
    (if intervalActive then [HbAct.clearItv] else []) ++ [HbAct.errSig, HbAct.close]

/-- Action trace of one heartbeat mode run: write the start unit, register
the interval, emit the successful heartbeat writes, and, if a heartbeat
write throws, clear the interval and close from inside the heartbeat
callback before the main delay settles. -/
def hbTrace (d : JSNum) (p : HbPath) : List HbAct :=
  if p.startFails then [HbAct.errSig, HbAct.close]
  else
    HbAct.enq SUnit.start :: HbAct.setItv ::
      (List.replicate p.n (HbAct.enq SUnit.heartbeat) ++
        (if p.hbFails then [HbAct.clearItv, HbAct.close] ++ hbTail d p false true
         else hbTail d p true false))

/-- The unit carried by a successful write action, if any. -/
def hbActUnit : HbAct → Option SUnit
  | HbAct.enq u => some u
  | _ => none

/-- Units actually written to the heartbeat response stream. -/
def hbUnits (d : JSNum) (p : HbPath) : List SUnit :=
  (hbTrace d p).filterMap hbActUnit

/-- Scan of an action trace checking that whenever the stream is closed
the periodic interval timer is not active. -/
def noTimerAtClose (active : Bool) : List HbAct → Bool
  | [] => true
  | HbAct.setItv :: r => noTimerAtClose true r
  | HbAct.clearItv :: r => noTimerAtClose false r
  | HbAct.close :: r => !active && noTimerAtClose active r
  | _ :: r => noTimerAtClose active r

/-- Whether the interval timer is active after running a trace. -/
def timerActiveAfter (active : Bool) : List HbAct → Bool
  | [] => active
  | HbAct.setItv :: r => timerActiveAfter true r
  | HbAct.clearItv :: r => timerActiveAfter false r
  | _ :: r => timerActiveAfter active r

/-- The heartbeat mode handler at the unit level, for a given run shape. -/
def handleHeartbeatMode (duration : JSNum) (p : HbPath) : List SUnit :=
  hbUnits duration p

/-- The radix 10 digits branch of parseInt: leading whitespace, an
optional sign, then leading decimal digits, or leading hexadecimal digits
after a 0x or 0X prefix; NaN when no digit follows. -/
def jsParseInt (s : String) : JSNum :=
  let cs := skipWs s.data
  let signed : Bool × List Char :=
    match cs with
    | '-' :: r => (true, r)
    | '+' :: r => (false, r)
    | r => (false, r)
  let mag : Option ℚ :=
    match signed.2 with
    | '0' :: 'x' :: r => hexMag r
    | '0' :: 'X' :: r => hexMag r
    | r =>
      match takeDigits r with
      | ([], _) => none
      | (ds, _) => some ((digitsToNat ds : ℕ) : ℚ)
  match mag with
  | none => none
  | some m => some (if signed.1 then -m else m)
where
  takeHex : List Char → List Nat × List Char
    | [] => ([], [])
    | c :: cs =>
      match hexVal c with
      | some d =>
        let r := takeHex cs
        (d :: r.1, r.2)
      | none => ([], c :: cs)
  hexMag (r : List Char) : Option ℚ :=
    match takeHex r with
    | ([], _) => none
    | (ds, _) => some ((ds.foldl (fun a d => a * 16 + d) 0 : ℕ) : ℚ)

/-- Defaulting of query parameters, modelling the expression
searchParams.get of a name followed by a logical or with a literal: a
missing parameter gives null and an empty string is falsy, so both fall
back to the default. -/
def orDefault : Option String → String → String
  | some s, d => if s = "" then d else s
  | none, d => d

/-- Environment of one GET request: how the signal delay would end, the
timestamp the handlers read from the clock, the shape of a heartbeat run,
and the fate of a streaming run. -/
structure ServerEnv where
  signalOutcome : SignalOutcome
  ts : String
  hb : HbPath
  fate : RunFate

/-- The GET route of src/app/api/mock/route.ts: read the mode parameter
with default signal, read the duration parameter with default 5000 through
parseInt, dispatch on the mode, answer 400 for an unknown mode, and answer
500 when a handler throws. -/
def GET (env : ServerEnv) (modeParam durationParam : Option String) : ApiResult :=
  let mode := orDefault modeParam "signal"
  let duration := jsParseInt (orDefault durationParam "5000")
  match mode with
  | "signal" =>
    match handleSignalMode env.signalOutcome duration env.ts with
    | some r => r
    | none => ApiResult.text 500 "Internal server error"
  | "stream" => ApiResult.ndjson 200 (handleStreamMode duration env.fate)
  | "heartbeat" => ApiResult.sse 200 (handleHeartbeatMode duration env.hb)
  | "chunked" => ApiResult.ndjson 200 (handleChunkedMode duration env.fate)
  | _ => ApiResult.text 400 "Invalid mode"

/-- Shared client state of the page component: the current request
identity, the loading flag, the response, error and progress values, and
whether the abort controller of the current request has been triggered. -/
structure ClientState where
  requestId : Nat
  loading : Bool
  response : Option Json
  error : Option String
  progress : Json
  aborted : Bool

/-- Steps the orchestrator in src/app/page.tsx can take, seen from the
shared state: handleApiCall starts a new request, a stream read delivers
one parsed unit owned by the request that issued the fetch, the catch
block reports a failure for its owner, the finally block finishes for its
owner, and handleCancelRequest cancels the current request. -/
inductive OrchAction where
  | start
  | deliver (owner : Nat) (ev : ClientEvent)
  | fail (owner : Nat) (msg : String)
  | finish (owner : Nat)
  | cancel

/-- Transition function of the orchestrator.  It mirrors the guards in
src/app/page.tsx: handleApiCall returns early while loading, otherwise
aborts the previous controller, increments the request identity and resets
the shared state; every delivery is applied only when its owning identity
equals the current identity and the current controller is not aborted;
the catch and finally blocks mutate state only when their owning identity
equals the current identity; handleCancelRequest aborts the controller,
clears loading and progress and sets the cancellation message. -/
def orchStep (st : ClientState) : OrchAction → ClientState
  | OrchAction.start =>
    if st.loading then st
    else
      { st with
        requestId := st.requestId + 1
        loading := true
        response := none
        error := none
        progress := Json.num 0
        aborted := false }
  | OrchAction.deliver owner ev =>
    if owner = st.requestId ∧ st.aborted = false then
      match ev with
      | ClientEvent.setResponse j => { st with response := some j }
      | ClientEvent.setProgress v => { st with progress := v }
    else st
  | OrchAction.fail owner msg =>
    if owner = st.requestId then { st with error := some msg } else st
  | OrchAction.finish owner =>
    if owner = st.requestId then { st with loading := false } else st
  | OrchAction.cancel =>
    { st with
      loading := false
      progress := Json.num 0
      error := some "Request cancelled by user"
      aborted := true }

/-- Test for a completion unit. -/
def isCompleteUnit : SUnit → Bool
  | SUnit.complete _ _ => true
  | _ => false

/-- The progress and elapsed fields of a progress unit, if any. -/
def progressPair : SUnit → Option (JSNum × JSNum)
  | SUnit.progress p el => some (p, el)
  | _ => none

/-- The progress and elapsed pairs of the progress units of a stream, in
emission order. -/
def progressPairs (us : List SUnit) : List (JSNum × JSNum) :=
  us.filterMap progressPair

/-- Serialize a list of lines the way the streaming handlers do: each line
followed by one newline. -/
def linesToStream (ls : List (List Char)) : List Char :=
  (ls.map (fun l => l ++ ['\n'])).flatten

/-- An SSE data line carrying the given JSON text. -/
def dataLine (l : List Char) : List Char :=
  "data: ".data ++ l

theorem splitOnNl_ne_nil (xs : List Char) : splitOnNl xs ≠ [] := by
  cases xs with
  | nil => simp [splitOnNl]
  | cons c rest =>
    simp only [splitOnNl]
    split
    · exact List.cons_ne_nil _ _
    · split <;> exact List.cons_ne_nil _ _

theorem splitOnNl_cons_nl (rest : List Char) :
    splitOnNl ('\n' :: rest) = [] :: splitOnNl rest := by
  simp [splitOnNl]

theorem splitOnNl_cons_ne {c : Char} (hc : ¬ c = '\n') (rest : List Char) :
    splitOnNl (c :: rest) = mergeHead [c] (splitOnNl rest) := by
  simp only [splitOnNl, if_neg hc]
  cases splitOnNl rest <;> simp [mergeHead]

theorem mergeHead_mergeHead (a b : List Char) (s : List (List Char)) :
    mergeHead a (mergeHead b s) = mergeHead (a ++ b) s := by
  cases s <;> simp [mergeHead]

theorem mergeHead_append (l : List Char) {A : List (List Char)} (h : A ≠ [])
    (B : List (List Char)) : mergeHead l (A ++ B) = mergeHead l A ++ B := by
  cases A with
  | nil => exact absurd rfl h
  | cons a t => simp [mergeHead]

theorem mergeHead_ne_nil (l : List Char) (s : List (List Char)) : mergeHead l s ≠ [] := by
  cases s <;> simp [mergeHead]

theorem mergeHead_nil_eq (s : List (List Char)) (h : s ≠ []) : mergeHead [] s = s := by
  cases s with
  | nil => exact absurd rfl h
  | cons a t => simp [mergeHead]

theorem getLastD_irrel {α : Type} : ∀ (l : List α), l ≠ [] → ∀ (d e : α),
    l.getLastD d = l.getLastD e
  | [], h, _, _ => absurd rfl h
  | [_], _, _, _ => rfl
  | x :: b :: t, _, d, e => by
    rw [List.getLastD_cons d x (b :: t), List.getLastD_cons e x (b :: t)]

theorem getLastD_mem {α : Type} : ∀ (l : List α), l ≠ [] → ∀ (d : α), l.getLastD d ∈ l
  | [], h, _ => absurd rfl h
  | [a], _, d => by simp [List.getLastD]
  | a :: b :: t, _, d => by
    rw [List.getLastD_cons]
    exact List.mem_cons_of_mem a (getLastD_mem (b :: t) (List.cons_ne_nil _ _) a)

theorem nonempty_decomp {α : Type} : ∀ (l : List α), l ≠ [] → ∀ (d : α),
    l = l.dropLast ++ [l.getLastD d]
  | [], h, _ => absurd rfl h
  | [a], _, d => rfl
  | a :: b :: t, _, d => by
    have ih := nonempty_decomp (b :: t) (List.cons_ne_nil _ _) a
    rw [List.getLastD_cons, List.dropLast_cons₂, List.cons_append, ← ih]

theorem getLastD_append {α : Type} (A : List α) {B : List α} (h : B ≠ []) (d : α) :
    (A ++ B).getLastD d = B.getLastD d := by
  induction A with
  | nil => rfl
  | cons a A ih =>
    have hne : A ++ B ≠ [] := fun hc => h (List.append_eq_nil.mp hc).2
    rw [List.cons_append, List.getLastD_cons d a (A ++ B), getLastD_irrel _ hne a d, ih]

theorem dropLast_append_ne_nil {α : Type} (A : List α) {B : List α} (h : B ≠ []) :
    (A ++ B).dropLast = A ++ B.dropLast := by
  conv_lhs => rw [← List.dropLast_append_getLast h]
  rw [← List.append_assoc, List.dropLast_concat]

theorem splitOnNl_append : ∀ (xs ys : List Char),
    splitOnNl (xs ++ ys) =
      (splitOnNl xs).dropLast ++ mergeHead ((splitOnNl xs).getLastD []) (splitOnNl ys) := by
  intro xs ys
  induction xs with
  | nil =>
    rw [List.nil_append]
    show splitOnNl ys = [[]].dropLast ++ mergeHead ([[]].getLastD []) (splitOnNl ys)
    rw [List.dropLast_single, show ([[]] : List (List Char)).getLastD [] = [] from rfl,
      List.nil_append, mergeHead_nil_eq _ (splitOnNl_ne_nil ys)]
  | cons c rest ih =>
    by_cases hc : c = '\n'
    · subst hc
      rw [List.cons_append, splitOnNl_cons_nl, splitOnNl_cons_nl, ih]
      cases hsp : splitOnNl rest with
      | nil => exact absurd hsp (splitOnNl_ne_nil rest)
      | cons m ms =>
        rw [List.dropLast_cons₂, List.getLastD_cons [] [] (m :: ms), List.cons_append]
    · rw [List.cons_append, splitOnNl_cons_ne hc (rest ++ ys), splitOnNl_cons_ne hc rest, ih]
      cases hsp : splitOnNl rest with
      | nil => exact absurd hsp (splitOnNl_ne_nil rest)
      | cons m ms =>
        cases ms with
        | nil =>
          rw [List.dropLast_single, show ([m] : List (List Char)).getLastD [] = m from rfl,
            show mergeHead [c] [m] = [[c] ++ m] from rfl, List.dropLast_single,
            show ([[c] ++ m] : List (List Char)).getLastD [] = [c] ++ m from rfl,
            List.nil_append, List.nil_append, mergeHead_mergeHead]
        | cons m2 ms2 =>
          rw [show mergeHead [c] (m :: m2 :: ms2) = ([c] ++ m) :: m2 :: ms2 from rfl,
            List.dropLast_cons₂, List.getLastD_cons [] ([c] ++ m) (m2 :: ms2),
            List.cons_append,
            getLastD_irrel (m2 :: ms2) (List.cons_ne_nil _ _) ([c] ++ m) m]
          rfl

theorem splitOnNl_mem_no_nl : ∀ (xs : List Char), ∀ l ∈ splitOnNl xs, '\n' ∉ l := by
  intro xs
  induction xs with
  | nil =>
    intro l hl
    simp [splitOnNl] at hl
    simp [hl]
  | cons c rest ih =>
    intro l hl
    by_cases hc : c = '\n'
    · subst hc
      rw [splitOnNl_cons_nl] at hl
      rcases List.mem_cons.mp hl with h | h
      · simp [h]
      · exact ih l h
    · rw [splitOnNl_cons_ne hc] at hl
      cases hsp : splitOnNl rest with
      | nil => exact absurd hsp (splitOnNl_ne_nil rest)
      | cons m ms =>
        rw [hsp, show mergeHead [c] (m :: ms) = (c :: m) :: ms from rfl] at hl
        rcases List.mem_cons.mp hl with h | h
        · subst h
          intro hmem
          rcases List.mem_cons.mp hmem with h2 | h2
          · exact hc h2.symm
          · exact ih m (by rw [hsp]; exact List.mem_cons_self m ms) h2
        · exact ih l (by rw [hsp]; exact List.mem_cons_of_mem m h)

theorem splitOnNl_no_nl : ∀ (xs : List Char), '\n' ∉ xs → splitOnNl xs = [xs] := by
  intro xs
  induction xs with
  | nil => intro _; rfl
  | cons c rest ih =>
    intro h
    have hc : ¬ c = '\n' := fun hcc => h (hcc ▸ List.mem_cons_self c rest)
    have hrest : '\n' ∉ rest := fun hr => h (List.mem_cons_of_mem c hr)
    rw [splitOnNl_cons_ne hc, ih hrest]
    rfl

theorem ndjsonFeed_append (st : NdjsonState) (c1 c2 : List Char) :
    ndjsonFeed (ndjsonFeed st c1) c2 = ndjsonFeed st (c1 ++ c2) := by
  have hS := splitOnNl_ne_nil (st.buffer ++ c1)
  have hlast_mem := getLastD_mem _ hS ([] : List Char)
  have hlast_nl : '\n' ∉ (splitOnNl (st.buffer ++ c1)).getLastD [] :=
    splitOnNl_mem_no_nl _ _ hlast_mem
  have h2 : splitOnNl ((splitOnNl (st.buffer ++ c1)).getLastD [] ++ c2) =
      mergeHead ((splitOnNl (st.buffer ++ c1)).getLastD []) (splitOnNl c2) := by
    rw [splitOnNl_append, splitOnNl_no_nl _ hlast_nl, List.dropLast_single,
      List.nil_append]
    rfl
  have hmain : splitOnNl (st.buffer ++ (c1 ++ c2)) =
      (splitOnNl (st.buffer ++ c1)).dropLast ++
        mergeHead ((splitOnNl (st.buffer ++ c1)).getLastD []) (splitOnNl c2) := by
    rw [← List.append_assoc, splitOnNl_append]
  simp only [ndjsonFeed, h2, hmain]
  rw [NdjsonState.mk.injEq]
  constructor
  · rw [getLastD_append _ (mergeHead_ne_nil _ _)]
  · rw [dropLast_append_ne_nil _ (mergeHead_ne_nil _ _), List.filterMap_append,
      List.append_assoc]

theorem foldl_ndjsonFeed (c : List Char) (chunks : List (List Char)) (st : NdjsonState) :
    (c :: chunks).foldl ndjsonFeed st = ndjsonFeed st (c ++ chunks.flatten) := by
  induction chunks generalizing c st with
  | nil => simp [List.foldl]
  | cons c2 rest ih =>
    show (c2 :: rest).foldl ndjsonFeed (ndjsonFeed st c) = _
    rw [ih c2 (ndjsonFeed st c), ndjsonFeed_append, List.flatten_cons]

theorem sseChunkEvents_aligned_append {c : List Char} (ys : List Char)
    (h : nlAligned c = true) :
    sseChunkEvents (c ++ ys) = sseChunkEvents c ++ sseChunkEvents ys := by
  cases c with
  | nil => rfl
  | cons a rest =>
    have hnl : (a :: rest).getLastD ' ' = '\n' := by
      simpa [nlAligned] using h
    have hdecomp : a :: rest = (a :: rest).dropLast ++ ['\n'] := by
      conv_lhs => rw [nonempty_decomp (a :: rest) (List.cons_ne_nil _ _) ' ']
      rw [hnl]
    have hlast : (splitOnNl (a :: rest)).getLastD [] = [] := by
      conv_lhs => rw [hdecomp]
      rw [splitOnNl_append, getLastD_append _ (mergeHead_ne_nil _ _)]
      rfl
    have hsplit := splitOnNl_append (a :: rest) ys
    rw [hlast, mergeHead_nil_eq _ (splitOnNl_ne_nil ys)] at hsplit
    simp only [sseChunkEvents]
    rw [show (a :: rest) ++ ys = a :: rest ++ ys from rfl, hsplit, List.filterMap_append]
    congr 1
    conv_rhs =>
      rw [nonempty_decomp (splitOnNl (a :: rest)) (splitOnNl_ne_nil _) ([] : List Char)]
    rw [hlast, List.filterMap_append,
      show List.filterMap sseLineEvent [[]] = [] from rfl, List.append_nil]

theorem handleSSEResponse_aligned : ∀ (chunks : List (List Char)),
    (∀ c ∈ chunks.dropLast, nlAligned c = true) →
    handleSSEResponse chunks = sseChunkEvents chunks.flatten := by
  intro chunks
  induction chunks with
  | nil => intro _; rfl
  | cons c rest ih =>
    intro h
    cases rest with
    | nil => simp [handleSSEResponse]
    | cons c2 rest2 =>
      have hc : nlAligned c = true := by
        refine h c ?_
        rw [List.dropLast_cons₂]
        exact List.mem_cons_self c _
      have hrest : ∀ x ∈ (c2 :: rest2).dropLast, nlAligned x = true := by
        intro x hx
        refine h x ?_
        rw [List.dropLast_cons₂]
        exact List.mem_cons_of_mem c hx
      show sseChunkEvents c ++ handleSSEResponse (c2 :: rest2) = _
      rw [ih hrest, List.flatten_cons, List.flatten_cons,
        sseChunkEvents_aligned_append _ hc, List.flatten_cons]

theorem qAdd_eq (a b : ℚ) : qAdd a b = a + b := by
  have hda : ((a.den : ℚ)) ≠ 0 := Nat.cast_ne_zero.mpr a.den_nz
  have hdb : ((b.den : ℚ)) ≠ 0 := Nat.cast_ne_zero.mpr b.den_nz
  rw [qAdd, Rat.mkRat_eq_div]
  conv_rhs => rw [← Rat.num_div_den a, ← Rat.num_div_den b]
  push_cast
  field_simp
  try ring

theorem qSub_eq (a b : ℚ) : qSub a b = a - b := by
  have hda : ((a.den : ℚ)) ≠ 0 := Nat.cast_ne_zero.mpr a.den_nz
  have hdb : ((b.den : ℚ)) ≠ 0 := Nat.cast_ne_zero.mpr b.den_nz
  rw [qSub, Rat.mkRat_eq_div]
  conv_rhs => rw [← Rat.num_div_den a, ← Rat.num_div_den b]
  push_cast
  field_simp
  try ring

theorem qMul_eq (a b : ℚ) : qMul a b = a * b := by
  have hda : ((a.den : ℚ)) ≠ 0 := Nat.cast_ne_zero.mpr a.den_nz
  have hdb : ((b.den : ℚ)) ≠ 0 := Nat.cast_ne_zero.mpr b.den_nz
  rw [qMul, Rat.mkRat_eq_div]
  conv_rhs => rw [← Rat.num_div_den a, ← Rat.num_div_den b]
  push_cast
  field_simp
  try ring

theorem qInv_eq (b : ℚ) : qInv b = b⁻¹ := by
  rw [Rat.inv_def', Rat.divInt_eq_div, qInv]
  by_cases hb : 0 ≤ b.num
  · rw [if_pos hb, Rat.mkRat_eq_div]
    congr 1
    rw [Int.cast_natAbs]
    exact_mod_cast abs_of_nonneg hb
  · rw [if_neg hb, Rat.mkRat_eq_div]
    have habs : ((b.num.natAbs : ℕ) : ℚ) = -((b.num : ℤ) : ℚ) := by
      rw [Int.cast_natAbs]
      exact_mod_cast abs_of_neg (lt_of_not_ge hb)
    rw [habs]
    push_cast
    rw [neg_div_neg_eq]

theorem qDiv_eq (a b : ℚ) : qDiv a b = a / b := by
  rw [qDiv, qMul_eq, qInv_eq, div_eq_mul_inv]

theorem qHalfUp_eq (q : ℚ) : qHalfUp q = q + 1 / 2 := by
  have hd : ((q.den : ℚ)) ≠ 0 := Nat.cast_ne_zero.mpr q.den_nz
  rw [qHalfUp, Rat.mkRat_eq_div]
  conv_rhs => rw [← Rat.num_div_den q]
  push_cast
  field_simp
  try ring

theorem ratRound_eq (q : ℚ) : ratRound q = round q := by
  rw [ratRound, round_eq, ← qHalfUp_eq, Rat.floor_def]

theorem ratFloorNat_eq (q : ℚ) : ratFloorNat q = (⌊q⌋).toNat := by
  rw [Rat.floor_def]
  rfl

theorem jsAdd_some (a b : ℚ) : jsAdd (some a) (some b) = some (a + b) := by
  simp [jsAdd, qAdd_eq]

theorem jsSub_some (a b : ℚ) : jsSub (some a) (some b) = some (a - b) := by
  simp [jsSub, qSub_eq]

theorem jsMul_some (a b : ℚ) : jsMul (some a) (some b) = some (a * b) := by
  simp [jsMul, qMul_eq]

theorem jsDiv_some (a : ℚ) {b : ℚ} (hb : ¬ b = 0) :
    jsDiv (some a) (some b) = some (a / b) := by
  simp [jsDiv, hb, qDiv_eq]

theorem jsRound_some (a : ℚ) : jsRound (some a) = some ((round a : ℤ) : ℚ) := by
  simp [jsRound, ratRound_eq]

theorem jsLt_some_true {a b : ℚ} (h : a < b) : jsLt (some a) (some b) = true := by
  simp [jsLt, h]

theorem jsLt_some_false {a b : ℚ} (h : ¬ a < b) : jsLt (some a) (some b) = false := by
  simp [jsLt, h]

theorem progressLoop_stop (d i : ℚ) (f k : Nat) (hed : ¬ d < d) :
    progressLoop (some d) (some i) RunFate.completes (f + 1) (some d) k = ([], true) := by
  simp only [progressLoop, jsLt_some_false hed, Bool.false_eq_true, if_false]

theorem round_hundred : ((round (100 : ℚ) : ℤ) : ℚ) = 100 := by
  norm_num [round_eq]

theorem jsMin_some (a b : ℚ) : jsMin (some a) (some b) = some (min a b) := rfl

theorem progressLoop_step (d i e : ℚ) (hed : e < d) (hd0 : ¬ d = 0) (f k : Nat) :
    progressLoop (some d) (some i) RunFate.completes (f + 1) (some e) k =
      (SUnit.progress (some ((round ((e + min i (d - e)) / d * 100) : ℤ) : ℚ))
          (some (e + min i (d - e))) ::
        (progressLoop (some d) (some i) RunFate.completes f
          (some (e + min i (d - e))) (k + 1)).1,
       (progressLoop (some d) (some i) RunFate.completes f
          (some (e + min i (d - e))) (k + 1)).2) := by
  simp only [progressLoop, jsLt_some_true hed, if_true, reduceCtorEq, if_false,
    jsSub_some, jsMin_some, jsAdd_some, jsDiv_some _ hd0, jsMul_some, jsRound_some]

theorem progressLoop_completes (d i : ℚ) (hi : 0 < i) :
    ∀ (fuel : Nat) (e : ℚ) (k : Nat), 0 ≤ e → e < d → d - e + i ≤ (fuel : ℚ) * i →
    ∃ ts0 : List SUnit,
      progressLoop (some d) (some i) RunFate.completes fuel (some e) k =
        (ts0 ++ [SUnit.progress (some 100) (some d)], true) ∧
      ∀ u ∈ ts0, ∃ p el, u = SUnit.progress p el := by
  intro fuel
  induction fuel with
  | zero =>
    intro e k he0 hed hfuel
    exfalso
    rw [Nat.cast_zero, zero_mul] at hfuel
    linarith
  | succ f ih =>
    intro e k he0 hed hfuel
    have hd0 : ¬ d = 0 := by
      intro h
      rw [h] at hed
      linarith
    have hfuel1 : d - e + i ≤ ((f : ℚ) + 1) * i := by
      push_cast at hfuel
      linarith
    by_cases hcl : d - e ≤ i
    · have hwait : min i (d - e) = d - e := min_eq_right hcl
      have he2 : e + min i (d - e) = d := by rw [hwait]; ring
      have hf1 : 1 ≤ f := by
        by_contra hf0
        have hz : f = 0 := by omega
        subst hz
        rw [Nat.cast_zero] at hfuel1
        have : d - e ≤ 0 := by linarith
        linarith
      obtain ⟨f2, rfl⟩ : ∃ f2, f = f2 + 1 := ⟨f - 1, by omega⟩
      refine ⟨[], ?_, by simp⟩
      rw [progressLoop_step d i e hed hd0 (f2 + 1) k, he2,
        progressLoop_stop d i f2 (k + 1) (lt_irrefl d), div_self hd0, one_mul,
        round_hundred]
      rfl
    · have hwait : min i (d - e) = i := min_eq_left (le_of_lt (lt_of_not_ge hcl))
      have he20 : 0 ≤ e + i := by linarith
      have he2lt : e + i < d := by
        have := lt_of_not_ge hcl
        linarith
      have hfuel2 : d - (e + i) + i ≤ (f : ℚ) * i := by
        have : d - e ≤ (f : ℚ) * i := by nlinarith
        linarith
      obtain ⟨ts0, hrec, hall⟩ := ih (e + i) (k + 1) he20 he2lt hfuel2
      refine ⟨SUnit.progress (some ((round ((e + i) / d * 100) : ℤ) : ℚ)) (some (e + i))
          :: ts0, ?_, ?_⟩
      · rw [progressLoop_step d i e hed hd0 f k, hwait, hrec]
        simp
      · intro u hu
        rcases List.mem_cons.mp hu with h | h
        · exact ⟨_, _, h⟩
        · exact hall u h

theorem progressLoop_loopFuel (d i : ℚ) (hi : 0 < i) (hd : 0 < d) :
    ∃ ts0 : List SUnit,
      progressLoop (some d) (some i) RunFate.completes
          (loopFuel (some d) (some i)) (some 0) 0 =
        (ts0 ++ [SUnit.progress (some 100) (some d)], true) ∧
      ∀ u ∈ ts0, ∃ p el, u = SUnit.progress p el := by
  refine progressLoop_completes d i hi _ 0 0 le_rfl hd ?_
  have hfl : loopFuel (some d) (some i) = ratFloorNat (qDiv d i) + 2 := by
    simp [loopFuel, hi]
  rw [hfl, ratFloorNat_eq, qDiv_eq]
  have hr : (0 : ℚ) ≤ d / i := by positivity
  have hfl0 : (0 : ℤ) ≤ ⌊d / i⌋ := Int.floor_nonneg.mpr hr
  have hcast : (((⌊d / i⌋.toNat + 2 : ℕ) : ℚ)) = ((⌊d / i⌋ : ℚ) + 2) := by
    have h3 : ((⌊d / i⌋.toNat : ℤ)) = ⌊d / i⌋ := Int.toNat_of_nonneg hfl0
    conv_rhs => rw [← h3]
    push_cast
    ring
  rw [hcast]
  have h1 : (d / i) < (⌊d / i⌋ : ℚ) + 1 := Int.lt_floor_add_one _
  have h2 : d / i * i = d := div_mul_cancel₀ d (ne_of_gt hi)
  nlinarith

theorem handleStreamMode_spec (d : ℚ) (hd : 0 < d) :
    ∃ ts0 : List SUnit,
      handleStreamMode (some d) RunFate.completes =
        SUnit.start :: (ts0 ++
          [SUnit.progress (some 100) (some d), SUnit.complete "stream" (some d)]) ∧
      ∀ u ∈ ts0, ∃ p el, u = SUnit.progress p el := by
  have hjs : jsMin (some 1000) (jsDiv (some d) (some 5)) = some (min 1000 (d / 5)) := by
    rw [jsDiv_some _ (by norm_num), jsMin_some]
  have hipos : 0 < min 1000 (d / 5) := lt_min (by norm_num) (by positivity)
  obtain ⟨ts0, hloop, hall⟩ := progressLoop_loopFuel d (min 1000 (d / 5)) hipos hd
  refine ⟨ts0, ?_, hall⟩
  simp only [handleStreamMode, hjs, hloop, if_true]
  simp

theorem handleChunkedMode_spec (d : ℚ) (hd : 0 < d) :
    ∃ ts0 : List SUnit,
      handleChunkedMode (some d) RunFate.completes =
        SUnit.start :: (ts0 ++
          [SUnit.progress (some 100) (some d), SUnit.complete "chunked" (some d)]) ∧
      ∀ u ∈ ts0, ∃ p el, u = SUnit.progress p el := by
  have hipos : (0 : ℚ) < 500 := by norm_num
  obtain ⟨ts0, hloop, hall⟩ := progressLoop_loopFuel d 500 hipos hd
  refine ⟨ts0, ?_, hall⟩
  simp only [handleChunkedMode, hloop, if_true]
  simp

theorem handleStreamMode_nonpos (d : ℚ) (hd : d ≤ 0) (fate : RunFate) :
    handleStreamMode (some d) fate = [SUnit.start, SUnit.complete "stream" (some d)] := by
  have hd5 : d / 5 ≤ 0 := div_nonpos_iff.mpr (Or.inr ⟨hd, by norm_num⟩)
  have hmin : min (1000 : ℚ) (d / 5) = d / 5 := min_eq_right (by linarith)
  have hni : ¬ (0 : ℚ) < d / 5 := not_lt.mpr hd5
  have hjs : jsMin (some 1000) (jsDiv (some d) (some 5)) = some (d / 5) := by
    rw [jsDiv_some _ (by norm_num), jsMin_some, hmin]
  simp only [handleStreamMode, hjs, loopFuel, if_neg hni, progressLoop,
    jsLt_some_false (not_lt.mpr hd), Bool.false_eq_true, if_false, if_true]
  simp

theorem handleChunkedMode_nonpos (d : ℚ) (hd : d ≤ 0) (fate : RunFate) :
    handleChunkedMode (some d) fate = [SUnit.start, SUnit.complete "chunked" (some d)] := by
  have hshape : loopFuel (some d) (some 500) = (ratFloorNat (qDiv d 500) + 1) + 1 := by
    simp [loopFuel]
  simp only [handleChunkedMode, hshape, progressLoop,
    jsLt_some_false (not_lt.mpr hd), Bool.false_eq_true, if_false, if_true]
  simp

theorem handleStreamMode_nan (fate : RunFate) :
    handleStreamMode none fate = [SUnit.start, SUnit.complete "stream" none] := rfl

theorem handleChunkedMode_nan (fate : RunFate) :
    handleChunkedMode none fate = [SUnit.start, SUnit.complete "chunked" none] := rfl

theorem noTimerAtClose_replicate (n : Nat) (b : Bool) (rest : List HbAct) :
    noTimerAtClose b (List.replicate n (HbAct.enq SUnit.heartbeat) ++ rest) =
      noTimerAtClose b rest := by
  induction n with
  | zero => rfl
  | succ m ih => simpa [List.replicate_succ, noTimerAtClose] using ih

theorem timerActiveAfter_replicate (n : Nat) (b : Bool) (rest : List HbAct) :
    timerActiveAfter b (List.replicate n (HbAct.enq SUnit.heartbeat) ++ rest) =
      timerActiveAfter b rest := by
  induction n with
  | zero => rfl
  | succ m ih => simpa [List.replicate_succ, timerActiveAfter] using ih

theorem close_mem_replicate_append (n : Nat) (rest : List HbAct)
    (h : HbAct.close ∈ rest) :
    HbAct.close ∈ List.replicate n (HbAct.enq SUnit.heartbeat) ++ rest :=
  List.mem_append_right _ h

theorem filterMap_hbActUnit_replicate (n : Nat) :
    (List.replicate n (HbAct.enq SUnit.heartbeat)).filterMap hbActUnit =
      List.replicate n SUnit.heartbeat := by
  induction n with
  | zero => rfl
  | succ m ih => simp [List.replicate_succ, hbActUnit, ih]

theorem hbUnits_completed (d : JSNum) (n : Nat) :
    hbUnits d ⟨false, n, false, HbDelay.completed, false⟩ =
      SUnit.start :: (List.replicate n SUnit.heartbeat ++
        [SUnit.complete "heartbeat" d]) := by
  simp only [hbUnits, hbTrace, hbTail, Bool.false_eq_true, if_false, if_true]
  simp only [List.filterMap_cons, hbActUnit, List.filterMap_append,
    filterMap_hbActUnit_replicate]
  simp [hbActUnit]

theorem filter_complete_of_progress (ts0 : List SUnit)
    (hall : ∀ u ∈ ts0, ∃ p el, u = SUnit.progress p el) :
    ts0.filter isCompleteUnit = [] := by
  induction ts0 with
  | nil => rfl
  | cons a t ih =>
    obtain ⟨p, el, rfl⟩ := hall a (List.mem_cons_self a t)
    simp only [List.filter_cons]
    rw [if_neg (by simp [isCompleteUnit])]
    exact ih fun u hu => hall u (List.mem_cons_of_mem _ hu)

theorem progressPairs_of_progress (ts0 : List SUnit) :
    ∀ (pv ev : JSNum) (m : String) (dv : JSNum),
      progressPairs (SUnit.start ::
          (ts0 ++ [SUnit.progress pv ev, SUnit.complete m dv])) =
        progressPairs ts0 ++ [(pv, ev)] := by
  intro pv ev m dv
  simp [progressPairs, List.filterMap_cons, List.filterMap_append, progressPair]

theorem shaped_filter (ts0 : List SUnit)
    (hall : ∀ u ∈ ts0, ∃ p el, u = SUnit.progress p el)
    (pv ev : JSNum) (m : String) (dv : JSNum) :
    (SUnit.start :: (ts0 ++ [SUnit.progress pv ev, SUnit.complete m dv])).filter
        isCompleteUnit = [SUnit.complete m dv] := by
  simp only [List.filter_cons, List.filter_append]
  rw [if_neg (by simp [isCompleteUnit]), filter_complete_of_progress ts0 hall]
  simp [isCompleteUnit]

theorem shaped_getLast (ts0 : List SUnit) (pv ev : JSNum) (m : String) (dv : JSNum) :
    (SUnit.start :: (ts0 ++ [SUnit.progress pv ev, SUnit.complete m dv])).getLast? =
      some (SUnit.complete m dv) := by
  rw [show SUnit.start :: (ts0 ++ [SUnit.progress pv ev, SUnit.complete m dv]) =
      (SUnit.start :: (ts0 ++ [SUnit.progress pv ev])) ++ [SUnit.complete m dv] by
    simp]
  exact List.getLast?_concat _

theorem filter_complete_replicate_hb (n : Nat) :
    (List.replicate n SUnit.heartbeat).filter isCompleteUnit = [] := by
  induction n with
  | zero => rfl
  | succ m ih =>
    simp only [List.replicate_succ, List.filter_cons]
    rw [if_neg (by simp [isCompleteUnit])]
    exact ih

theorem hb_shaped_filter (n : Nat) (m : String) (dv : JSNum) :
    (SUnit.start :: (List.replicate n SUnit.heartbeat ++
        [SUnit.complete m dv])).filter isCompleteUnit = [SUnit.complete m dv] := by
  simp only [List.filter_cons, List.filter_append]
  rw [if_neg (by simp [isCompleteUnit]), filter_complete_replicate_hb n]
  simp [isCompleteUnit]

theorem hb_shaped_getLast (n : Nat) (m : String) (dv : JSNum) :
    (SUnit.start :: (List.replicate n SUnit.heartbeat ++
        [SUnit.complete m dv])).getLast? = some (SUnit.complete m dv) := by
  rw [show SUnit.start :: (List.replicate n SUnit.heartbeat ++ [SUnit.complete m dv]) =
      (SUnit.start :: List.replicate n SUnit.heartbeat) ++ [SUnit.complete m dv] by
    simp]
  exact List.getLast?_concat _

theorem splitOnNl_linesToStream (ls : List (List Char)) (h : ∀ l ∈ ls, '\n' ∉ l) :
    splitOnNl (linesToStream ls) = ls ++ [[]] := by
  induction ls with
  | nil => rfl
  | cons l rest ih =>
    have hstep : linesToStream (l :: rest) = (l ++ ['\n']) ++ linesToStream rest := by
      simp [linesToStream]
    have hl : splitOnNl (l ++ ['\n']) = [l, []] := by
      rw [splitOnNl_append, splitOnNl_no_nl l (h l (List.mem_cons_self l rest))]
      simp [mergeHead, splitOnNl]
    have hrest := ih fun x hx => h x (List.mem_cons_of_mem l hx)
    rw [hstep, splitOnNl_append, hl,
      show ([l, []] : List (List Char)).dropLast = [l] from rfl,
      show ([l, []] : List (List Char)).getLastD [] = [] from rfl,
      mergeHead_nil_eq _ (splitOnNl_ne_nil _), hrest]
    simp

theorem handleStreamResponse_lines (ls : List (List Char))
    (h : ∀ l ∈ ls, '\n' ∉ l) :
    handleStreamResponse [linesToStream ls] = ls.filterMap ndjsonLineEvent := by
  show (ndjsonFeed { buffer := [], events := [] } (linesToStream ls)).events = _
  simp only [ndjsonFeed, List.nil_append, splitOnNl_linesToStream ls h,
    List.dropLast_concat]

theorem handleSSEResponse_lines (ls : List (List Char))
    (h : ∀ l ∈ ls, '\n' ∉ l) :
    handleSSEResponse [linesToStream ls] = ls.filterMap sseLineEvent := by
  show sseChunkEvents (linesToStream ls) ++ [] = _
  rw [List.append_nil]
  simp only [sseChunkEvents, splitOnNl_linesToStream ls h, List.filterMap_append]
  simp [sseLineEvent, startsWith]

theorem startsWith_refl_append : ∀ (p s : List Char), startsWith p (p ++ s) = true := by
  intro p
  induction p with
  | nil => intro s; rfl
  | cons c cs ih => intro s; simp [startsWith, ih]

theorem dataLine_drop (l : List Char) : (dataLine l).drop 6 = l := by
  rw [dataLine, show (6 : ℕ) = ("data: ".data).length from rfl, List.drop_left]

theorem sseLineEvent_dataLine_bad {bad : List Char} (hbad : parseJson bad = none) :
    sseLineEvent (dataLine bad) = none := by
  rw [sseLineEvent, if_pos (by rw [dataLine]; exact startsWith_refl_append _ _),
    dataLine_drop, hbad]

theorem ndjsonLineEvent_bad {bad : List Char} (hbad : parseJson bad = none) :
    ndjsonLineEvent bad = none := by
  rw [ndjsonLineEvent]
  split
  · rfl
  · rw [hbad]

theorem GET_nan_units (env : ServerEnv) (ds : String) (hne : ¬ ds = "")
    (hnan : jsParseInt ds = none) :
    GET env (some "stream") (some ds) =
      ApiResult.ndjson 200 [SUnit.start, SUnit.complete "stream" none] ∧
    GET env (some "chunked") (some ds) =
      ApiResult.ndjson 200 [SUnit.start, SUnit.complete "chunked" none] := by
  constructor <;>
    simp [GET, orDefault, if_neg hne, hnan, handleStreamMode_nan, handleChunkedMode_nan]

theorem stream_invariants (d : ℚ) (hd : 0 ≤ d) :
    (handleStreamMode (some d) RunFate.completes).filter isCompleteUnit =
      [SUnit.complete "stream" (some d)] ∧
    (handleStreamMode (some d) RunFate.completes).getLast? =
      some (SUnit.complete "stream" (some d)) ∧
    (0 < d →
      (progressPairs (handleStreamMode (some d) RunFate.completes)).getLast? =
        some (some 100, some d)) := by
  rcases eq_or_lt_of_le hd with heq | hpos
  · rw [← heq, handleStreamMode_nonpos 0 le_rfl RunFate.completes]
    exact ⟨rfl, rfl, fun h => absurd h (lt_irrefl 0)⟩
  · obtain ⟨ts0, hu, hall⟩ := handleStreamMode_spec d hpos
    rw [hu]
    refine ⟨shaped_filter ts0 hall _ _ _ _, shaped_getLast ts0 _ _ _ _, fun _ => ?_⟩
    rw [progressPairs_of_progress ts0 _ _ _ _]
    exact List.getLast?_concat _

theorem chunked_invariants (d : ℚ) (hd : 0 ≤ d) :
    (handleChunkedMode (some d) RunFate.completes).filter isCompleteUnit =
      [SUnit.complete "chunked" (some d)] ∧
    (handleChunkedMode (some d) RunFate.completes).getLast? =
      some (SUnit.complete "chunked" (some d)) ∧
    (0 < d →
      (progressPairs (handleChunkedMode (some d) RunFate.completes)).getLast? =
        some (some 100, some d)) := by
  rcases eq_or_lt_of_le hd with heq | hpos
  · rw [← heq, handleChunkedMode_nonpos 0 le_rfl RunFate.completes]
    exact ⟨rfl, rfl, fun h => absurd h (lt_irrefl 0)⟩
  · obtain ⟨ts0, hu, hall⟩ := handleChunkedMode_spec d hpos
    rw [hu]
    refine ⟨shaped_filter ts0 hall _ _ _ _, shaped_getLast ts0 _ _ _ _, fun _ => ?_⟩
    rw [progressPairs_of_progress ts0 _ _ _ _]
    exact List.getLast?_concat _

theorem heartbeat_invariants (d : ℚ) (n : Nat) :
    (handleHeartbeatMode (some d) ⟨false, n, false, HbDelay.completed, false⟩).filter
        isCompleteUnit = [SUnit.complete "heartbeat" (some d)] ∧
    (handleHeartbeatMode (some d) ⟨false, n, false, HbDelay.completed, false⟩).getLast? =
      some (SUnit.complete "heartbeat" (some d)) := by
  rw [show handleHeartbeatMode (some d) ⟨false, n, false, HbDelay.completed, false⟩ =
      SUnit.start :: (List.replicate n SUnit.heartbeat ++
        [SUnit.complete "heartbeat" (some d)]) from hbUnits_completed (some d) n]
  exact ⟨hb_shaped_filter n _ _, hb_shaped_getLast n _ _⟩

/-- Claim C1, counterexample: splitting one SSE frame across two reads at a
byte boundary inside the frame changes the dispatched event sequence,
because handleSSEResponse keeps no partial line buffer across reads: the
unsplit stream dispatches one progress update while the split stream
dispatches nothing. -/
theorem sse_midframe_split_changes_events :
    ¬ (handleSSEResponse ["data: \x7b\"ty".data,
        "pe\":\"progress\",\"progress\":50\x7d\n\n".data] =
      handleSSEResponse [("data: \x7b\"ty".data ++
        "pe\":\"progress\",\"progress\":50\x7d\n\n".data)]) := by
  intro h
  have h1 : handleSSEResponse ["data: \x7b\"ty".data,
      "pe\":\"progress\",\"progress\":50\x7d\n\n".data] = [] := rfl
  have h2 : handleSSEResponse [("data: \x7b\"ty".data ++
      "pe\":\"progress\",\"progress\":50\x7d\n\n".data)] =
      [ClientEvent.setProgress (Json.num 50)] := rfl
  rw [h1, h2] at h
  exact List.cons_ne_nil _ _ h.symm

/-- Claim C1, amended: for the client SSE parser, splitting the byte
stream across reads yields the same dispatched event sequence as feeding
the whole stream in one read, provided every read boundary falls at a line
boundary, that is, every chunk except possibly the last either is empty or
ends with a newline; a split inside a frame drops that frame, because the
parser keeps no partial line buffer across reads. -/
theorem sse_aligned_split_invariance (chunks : List (List Char))
    (h : ∀ c ∈ chunks.dropLast, nlAligned c = true) :
    handleSSEResponse chunks = handleSSEResponse [chunks.flatten] := by
  have h2 : handleSSEResponse [chunks.flatten] = sseChunkEvents chunks.flatten := by
    simp [handleSSEResponse]
  rw [h2, handleSSEResponse_aligned chunks h]

/-- Witness for the amended claim C1 at a concrete line aligned split. -/
theorem sse_aligned_split_invariance_witness :
    (∀ c ∈ ([("data: \x7b\"type\":\"progress\",\"progress\":20\x7d\n").data,
        ("\ndata: \x7b\"type\":\"complete\"\x7d\n\n").data] :
        List (List Char)).dropLast, nlAligned c = true) ∧
    handleSSEResponse [("data: \x7b\"type\":\"progress\",\"progress\":20\x7d\n").data,
        ("\ndata: \x7b\"type\":\"complete\"\x7d\n\n").data] =
      handleSSEResponse [([("data: \x7b\"type\":\"progress\",\"progress\":20\x7d\n").data,
        ("\ndata: \x7b\"type\":\"complete\"\x7d\n\n").data] :
        List (List Char)).flatten] :=
  ⟨by decide, sse_aligned_split_invariance _ (by decide)⟩

/-- Claim C2: for the client NDJSON parser, feeding a byte stream split
into read chunks at arbitrary boundaries, including boundaries inside a
line, dispatches the identical event sequence as feeding the whole stream
in a single read, because handleStreamResponse keeps the trailing partial
line in a buffer between reads. -/
theorem ndjson_split_invariance (chunks : List (List Char)) :
    handleStreamResponse chunks = handleStreamResponse [chunks.flatten] := by
  cases chunks with
  | nil => rfl
  | cons c rest =>
    show (List.foldl ndjsonFeed { buffer := [], events := [] } (c :: rest)).events = _
    rw [foldl_ndjsonFeed]
    rfl

/-- Claim C3: once the orchestrator has incremented the request identity
past the identity owned by an earlier request, any delivery, failure
report or finish step of the earlier request leaves the shared client
state unchanged; only steps whose identity equals the current identity can
mutate it. -/
theorem request_supersession (st0 : ClientState) (acts : List OrchAction)
    (owner : Nat) (ev : ClientEvent) (msg : String)
    (hown : owner ≤ st0.requestId)
    (hsup : st0.requestId < (acts.foldl orchStep st0).requestId) :
    orchStep (acts.foldl orchStep st0) (OrchAction.deliver owner ev) =
        acts.foldl orchStep st0 ∧
      orchStep (acts.foldl orchStep st0) (OrchAction.fail owner msg) =
        acts.foldl orchStep st0 ∧
      orchStep (acts.foldl orchStep st0) (OrchAction.finish owner) =
        acts.foldl orchStep st0 := by
  have hne : ¬ owner = (acts.foldl orchStep st0).requestId := by omega
  refine ⟨?_, ?_, ?_⟩ <;> simp [orchStep, hne]

/-- Witness for claim C3: a cancel followed by a fresh request supersedes
the request with identity one, whose late delivery is then discarded. -/
theorem request_supersession_witness :
    ((1 : Nat) ≤ (⟨1, true, none, none, Json.num 0, false⟩ : ClientState).requestId) ∧
    ((⟨1, true, none, none, Json.num 0, false⟩ : ClientState).requestId <
      (([OrchAction.cancel, OrchAction.start]).foldl orchStep
        (⟨1, true, none, none, Json.num 0, false⟩ : ClientState)).requestId) ∧
    (orchStep (([OrchAction.cancel, OrchAction.start]).foldl orchStep
          (⟨1, true, none, none, Json.num 0, false⟩ : ClientState))
        (OrchAction.deliver 1 (ClientEvent.setProgress (Json.num 50))) =
        ([OrchAction.cancel, OrchAction.start]).foldl orchStep
          (⟨1, true, none, none, Json.num 0, false⟩ : ClientState) ∧
      orchStep (([OrchAction.cancel, OrchAction.start]).foldl orchStep
          (⟨1, true, none, none, Json.num 0, false⟩ : ClientState))
        (OrchAction.fail 1 "late") =
        ([OrchAction.cancel, OrchAction.start]).foldl orchStep
          (⟨1, true, none, none, Json.num 0, false⟩ : ClientState) ∧
      orchStep (([OrchAction.cancel, OrchAction.start]).foldl orchStep
          (⟨1, true, none, none, Json.num 0, false⟩ : ClientState))
        (OrchAction.finish 1) =
        ([OrchAction.cancel, OrchAction.start]).foldl orchStep
          (⟨1, true, none, none, Json.num 0, false⟩ : ClientState)) :=
  ⟨by decide, by decide,
    request_supersession _ [OrchAction.cancel, OrchAction.start] 1
      (ClientEvent.setProgress (Json.num 50)) "late" (by decide) (by decide)⟩

/-- Claim C4: for every mode and every nonnegative duration, a run that is
not cancelled emits exactly one completion unit carrying the mode and the
duration, the completion unit is the last unit, and in the tick emitting
modes the last progress unit, when one exists, carries progress exactly
100 and elapsed time exactly equal to the duration, with no overshoot. -/
theorem completed_run_invariants (d : ℚ) (hd : 0 ≤ d) (n : Nat) (ts : String) :
    ((handleStreamMode (some d) RunFate.completes).filter isCompleteUnit =
        [SUnit.complete "stream" (some d)] ∧
      (handleStreamMode (some d) RunFate.completes).getLast? =
        some (SUnit.complete "stream" (some d)) ∧
      (0 < d →
        (progressPairs (handleStreamMode (some d) RunFate.completes)).getLast? =
          some (some 100, some d))) ∧
    ((handleChunkedMode (some d) RunFate.completes).filter isCompleteUnit =
        [SUnit.complete "chunked" (some d)] ∧
      (handleChunkedMode (some d) RunFate.completes).getLast? =
        some (SUnit.complete "chunked" (some d)) ∧
      (0 < d →
        (progressPairs (handleChunkedMode (some d) RunFate.completes)).getLast? =
          some (some 100, some d))) ∧
    ((handleHeartbeatMode (some d) ⟨false, n, false, HbDelay.completed, false⟩).filter
        isCompleteUnit = [SUnit.complete "heartbeat" (some d)] ∧
      (handleHeartbeatMode (some d)
          ⟨false, n, false, HbDelay.completed, false⟩).getLast? =
        some (SUnit.complete "heartbeat" (some d))) ∧
    handleSignalMode SignalOutcome.completed (some d) ts =
      some (ApiResult.json 200 (Json.obj
        [("mode", Json.str "signal"),
         ("message", Json.str ("Completed after " ++ jsNumToString (some d) ++
           "ms using AbortSignal")),
         ("timestamp", Json.str ts),
         ("duration", Json.num d)])) :=
  ⟨stream_invariants d hd, chunked_invariants d hd, heartbeat_invariants d n, rfl⟩

/-- Witness for claim C4 at duration 2000 with two heartbeats. -/
theorem completed_run_invariants_witness :
    ((0 : ℚ) ≤ 2000) ∧
    ((handleStreamMode (some 2000) RunFate.completes).filter isCompleteUnit =
        [SUnit.complete "stream" (some 2000)] ∧
      (handleStreamMode (some 2000) RunFate.completes).getLast? =
        some (SUnit.complete "stream" (some 2000)) ∧
      ((0 : ℚ) < 2000 →
        (progressPairs (handleStreamMode (some 2000) RunFate.completes)).getLast? =
          some (some 100, some 2000))) ∧
    ((handleChunkedMode (some 2000) RunFate.completes).filter isCompleteUnit =
        [SUnit.complete "chunked" (some 2000)] ∧
      (handleChunkedMode (some 2000) RunFate.completes).getLast? =
        some (SUnit.complete "chunked" (some 2000)) ∧
      ((0 : ℚ) < 2000 →
        (progressPairs (handleChunkedMode (some 2000) RunFate.completes)).getLast? =
          some (some 100, some 2000))) ∧
    ((handleHeartbeatMode (some 2000) ⟨false, 2, false, HbDelay.completed, false⟩).filter
        isCompleteUnit = [SUnit.complete "heartbeat" (some 2000)] ∧
      (handleHeartbeatMode (some 2000)
          ⟨false, 2, false, HbDelay.completed, false⟩).getLast? =
        some (SUnit.complete "heartbeat" (some 2000))) ∧
    handleSignalMode SignalOutcome.completed (some 2000) "T" =
      some (ApiResult.json 200 (Json.obj
        [("mode", Json.str "signal"),
         ("message", Json.str ("Completed after " ++ jsNumToString (some 2000) ++
           "ms using AbortSignal")),
         ("timestamp", Json.str "T"),
         ("duration", Json.num 2000)])) :=
  ⟨by decide, completed_run_invariants 2000 (by decide) 2 "T"⟩

/-- Claim C5: for every nonpositive duration, the stream and chunked
handlers emit exactly one start unit immediately followed by exactly one
completion unit, with zero progress ticks, whatever the run fate, because
the loop guard fails at once. -/
theorem nonpositive_duration_units (d : ℚ) (hd : d ≤ 0) (fate : RunFate) :
    handleStreamMode (some d) fate =
      [SUnit.start, SUnit.complete "stream" (some d)] ∧
    handleChunkedMode (some d) fate =
      [SUnit.start, SUnit.complete "chunked" (some d)] :=
  ⟨handleStreamMode_nonpos d hd fate, handleChunkedMode_nonpos d hd fate⟩

/-- Witness for claim C5 at duration negative one hundred. -/
theorem nonpositive_duration_units_witness :
    ((-100 : ℚ) ≤ 0) ∧
    (handleStreamMode (some (-100)) RunFate.completes =
      [SUnit.start, SUnit.complete "stream" (some (-100))] ∧
    handleChunkedMode (some (-100)) RunFate.completes =
      [SUnit.start, SUnit.complete "chunked" (some (-100))]) :=
  ⟨by decide, nonpositive_duration_units (-100) (by decide) RunFate.completes⟩

/-- Claim C6: in signal mode a completed delay produces a 200 response
whose JSON body carries the fields mode, message, timestamp and duration,
while an aborted delay produces a 499 response with a plain text body and
no JSON body. -/
theorem signal_mode_responses (d : JSNum) (ts : String) :
    handleSignalMode SignalOutcome.completed d ts =
      some (ApiResult.json 200 (Json.obj
        [("mode", Json.str "signal"),
         ("message", Json.str ("Completed after " ++ jsNumToString d ++
           "ms using AbortSignal")),
         ("timestamp", Json.str ts),
         ("duration", jsNumToJson d)])) ∧
    handleSignalMode SignalOutcome.aborted d ts =
      some (ApiResult.text 499 "Request was aborted") :=
  ⟨rfl, rfl⟩

/-- Claim C7: on every terminal path of the heartbeat handler the periodic
heartbeat interval is inactive at every point where the stream is closed,
the interval is inactive once the run has ended, and every run does close
the stream, so no periodic timer outlives the response stream. -/
theorem heartbeat_teardown (d : JSNum) (p : HbPath) :
    noTimerAtClose false (hbTrace d p) = true ∧
    timerActiveAfter false (hbTrace d p) = false ∧
    HbAct.close ∈ hbTrace d p := by
  rcases p with ⟨sf, n, hf, dl, cf⟩
  cases sf <;> cases hf <;> cases dl <;> cases cf <;>
    simp [hbTrace, hbTail, noTimerAtClose, timerActiveAfter,
      noTimerAtClose_replicate, timerActiveAfter_replicate,
      List.mem_append, List.mem_replicate]

/-- Claim C8: a line that fails to decode as JSON is silently skipped by
both client parsers: removing it from the stream leaves the dispatched
event sequence unchanged, so it updates no client state and every
subsequent well formed unit is still parsed and applied. -/
theorem malformed_unit_skipped (ls1 ls2 : List (List Char)) (bad : List Char)
    (hbad : parseJson bad = none) (hnl : '\n' ∉ bad)
    (hls : ∀ l ∈ ls1 ++ ls2, '\n' ∉ l) :
    handleStreamResponse [linesToStream (ls1 ++ bad :: ls2)] =
      handleStreamResponse [linesToStream (ls1 ++ ls2)] ∧
    handleSSEResponse [linesToStream ((ls1 ++ bad :: ls2).map dataLine)] =
      handleSSEResponse [linesToStream ((ls1 ++ ls2).map dataLine)] := by
  have hls1 : ∀ l ∈ ls1, '\n' ∉ l := fun l hl =>
    hls l (List.mem_append_left _ hl)
  have hls2 : ∀ l ∈ ls2, '\n' ∉ l := fun l hl =>
    hls l (List.mem_append_right _ hl)
  have hmid : ∀ l ∈ ls1 ++ bad :: ls2, '\n' ∉ l := by
    intro l hl
    rcases List.mem_append.mp hl with h | h
    · exact hls1 l h
    · rcases List.mem_cons.mp h with h2 | h2
      · rw [h2]; exact hnl
      · exact hls2 l h2
  have hdl : ∀ l : List Char, '\n' ∉ l → '\n' ∉ dataLine l := by
    intro l hlf hmem
    rw [dataLine] at hmem
    rcases List.mem_append.mp hmem with h | h
    · revert h; decide
    · exact hlf h
  have hmapmid : ∀ l ∈ (ls1 ++ bad :: ls2).map dataLine, '\n' ∉ l := by
    intro l hl
    obtain ⟨x, hx, rfl⟩ := List.mem_map.mp hl
    exact hdl x (hmid x hx)
  have hmap2 : ∀ l ∈ (ls1 ++ ls2).map dataLine, '\n' ∉ l := by
    intro l hl
    obtain ⟨x, hx, rfl⟩ := List.mem_map.mp hl
    exact hdl x (hls x hx)
  constructor
  · rw [handleStreamResponse_lines _ hmid, handleStreamResponse_lines _ hls]
    simp [List.filterMap_append, List.filterMap_cons, ndjsonLineEvent_bad hbad]
  · rw [handleSSEResponse_lines _ hmapmid, handleSSEResponse_lines _ hmap2]
    simp [List.filterMap_append, List.filterMap_cons, List.map_append,
      sseLineEvent_dataLine_bad hbad]

/-- Witness for claim C8: the spec scenario of a malformed line injected
between two valid progress units. -/
theorem malformed_unit_skipped_witness :
    parseJson ("not json".data) = none ∧
    ('\n' ∉ "not json".data) ∧
    (∀ l ∈ ([("\x7b\"status\":\"progress\",\"progress\":30\x7d").data] ++
        [("\x7b\"status\":\"progress\",\"progress\":60\x7d").data] :
        List (List Char)), '\n' ∉ l) ∧
    (handleStreamResponse [linesToStream
        ([("\x7b\"status\":\"progress\",\"progress\":30\x7d").data] ++
          "not json".data :: [("\x7b\"status\":\"progress\",\"progress\":60\x7d").data])] =
      handleStreamResponse [linesToStream
        ([("\x7b\"status\":\"progress\",\"progress\":30\x7d").data] ++
          [("\x7b\"status\":\"progress\",\"progress\":60\x7d").data])] ∧
    handleSSEResponse [linesToStream
        (([("\x7b\"status\":\"progress\",\"progress\":30\x7d").data] ++
          "not json".data ::
            [("\x7b\"status\":\"progress\",\"progress\":60\x7d").data]).map dataLine)] =
      handleSSEResponse [linesToStream
        (([("\x7b\"status\":\"progress\",\"progress\":30\x7d").data] ++
          [("\x7b\"status\":\"progress\",\"progress\":60\x7d").data]).map dataLine)]) :=
  ⟨rfl, by decide, by decide,
    malformed_unit_skipped _ _ _ rfl (by decide) (by decide)⟩

/-- Claim C9: in stream mode with duration 5000 the tick interval is 1000,
the emitted progress values are exactly 20, 40, 60, 80 and 100 at elapsed
times 1000 through 5000, five ticks of 1000 milliseconds each, followed by
exactly one completion unit whose duration field equals 5000. -/
theorem stream_5000_scenario :
    jsMin (some 1000) (jsDiv (some 5000) (some 5)) = some 1000 ∧
    handleStreamMode (some 5000) RunFate.completes =
      [SUnit.start,
       SUnit.progress (some 20) (some 1000), SUnit.progress (some 40) (some 2000),
       SUnit.progress (some 60) (some 3000), SUnit.progress (some 80) (some 4000),
       SUnit.progress (some 100) (some 5000),
       SUnit.complete "stream" (some 5000)] := by
  exact ⟨by decide, by decide⟩

/-- Claim C10: a duration query parameter on which parseInt yields NaN is
not rejected with 400; in stream and chunked modes the response has status
200 and the body is the start unit immediately followed by the completion
unit, with zero progress units, because the loop guard comparing elapsed
with NaN is false. -/
theorem nan_duration_not_rejected (env : ServerEnv) (ds : String)
    (hne : ¬ ds = "") (hnan : jsParseInt ds = none) :
    GET env (some "stream") (some ds) =
      ApiResult.ndjson 200 [SUnit.start, SUnit.complete "stream" none] ∧
    GET env (some "chunked") (some ds) =
      ApiResult.ndjson 200 [SUnit.start, SUnit.complete "chunked" none] :=
  GET_nan_units env ds hne hnan

/-- Witness for claim C10 at the duration string abc. -/
theorem nan_duration_not_rejected_witness :
    (¬ ("abc" : String) = "") ∧
    jsParseInt "abc" = none ∧
    (GET ⟨SignalOutcome.completed, "T", ⟨false, 0, false, HbDelay.completed, false⟩,
        RunFate.completes⟩ (some "stream") (some "abc") =
      ApiResult.ndjson 200 [SUnit.start, SUnit.complete "stream" none] ∧
    GET ⟨SignalOutcome.completed, "T", ⟨false, 0, false, HbDelay.completed, false⟩,
        RunFate.completes⟩ (some "chunked") (some "abc") =
      ApiResult.ndjson 200 [SUnit.start, SUnit.complete "chunked" none]) :=
  ⟨by decide, rfl,
    nan_duration_not_rejected _ "abc" (by decide) rfl⟩
